import Mathlib

/-!
Verification of the LibCST matcher engine (`libcst/matchers/_matcher_base.py`).

The development gives a shallow embedding of the matcher data model and of the
matching algorithm: `_sequence_matches`, `_attribute_matches`,
`_metadata_matches`, `_node_matches`, `_matches`, the public entry points
`extract` / `matches` / `findall` / `extractall`, and the constructor-level
normalisation performed by `OneOf.__init__`, `AllOf.__init__` and
`DoesNotMatch`.

Python values are modelled as follows:

* A CST node is a type tag together with named fields (`Node`).
* An attribute value (`Value`) is `None`, a bool, a str, a child node,
  a sequence of children, or a `MaybeSentinel`.
* Sequence elements (`Elem`) are nodes or `MaybeSentinel`s, as in the
  signature of `_sequence_matches`.
* A matcher (`Matcher`) is the tagged union of every matcher kind appearing
  in the source file.  Python lists used as sequence matchers are the
  `mseq` constructor; plain `str` / `bool` / `None` attribute matchers are
  `mstr` / `mbool` / `mnone`.
* The result of a matching function (`Res`) is a capture dictionary
  (success), `None` (ordinary failure) or a raised exception (`err`),
  so that exception behaviour is part of the model.
* The metadata resolver is an arbitrary function
  `Lookup : String → Value → Option Value`; `Option.none` models the
  `_METADATA_MISSING_SENTINEL` result.

Capture dictionaries are association lists with Python `dict` update
semantics (`dictInsert` keeps the original key position, `dictMerge a b`
is `{**a, **b}`).
-/

set_option linter.unreachableTactic false
set_option linter.unusedVariables false

mutual

/-- A CST node: a class-name tag and named attribute values
(mirrors the external tree-node contract used by the matcher). -/
inductive Node : Type where
  | mk (tag : String) (fields : List (String × Value))

/-- An attribute value as accepted by the matching functions. -/
inductive Value : Type where
  | vnone
  | vbool (b : Bool)
  | vstr (s : String)
  | vnode (n : Node)
  | vseq (elems : List Elem)
  | vmaybe

/-- An element of a sequence-valued field: a node or a `MaybeSentinel`. -/
inductive Elem : Type where
  | emaybe
  | enode (n : Node)

end

/-- The matcher value model: every matcher kind of `_matcher_base.py`.
`concrete` is a generated concrete matcher class (type tag plus per-field
sub-matchers, the reserved field name `"metadata"` included among them);
`mseq` is a Python list used as a sequence matcher; `mstr` / `mbool` /
`mnone` are raw `str` / `bool` / `None` attribute matchers. -/
inductive Matcher : Type where
  | doNotCare
  | mstr (s : String)
  | mbool (b : Bool)
  | mnone
  | mseq (ms : List Matcher)
  | concrete (tag : String) (fields : List (String × Matcher))
  | oneOf (options : List Matcher)
  | allOf (options : List Matcher)
  | inverseOf (m : Matcher)
  | extractNode (m : Matcher) (name : String)
  | matchIfTrue (f : Value → Bool)
  | matchMetadata (key : String) (value : Value)
  | matchMetadataIfTrue (key : String) (f : Value → Bool)
  | atLeastN (m : Matcher) (n : Nat)
  | atMostN (m : Matcher) (n : Nat)

/-- A metadata resolver: provider key and node to value, `Option.none`
standing for `_METADATA_MISSING_SENTINEL`. -/
abbrev Lookup := String → Value → Option Value

/-- A capture dictionary (Python `dict` with insertion order). -/
abbrev Captures := List (String × Value)

/-- Result of one matching function: success with captures, ordinary
failure (`None` in Python), or a raised exception. -/
inductive Res : Type where
  | ok (c : Captures)
  | fail
  | err (e : String)

/-- Python `d[k] = v`: update in place if the key exists, else append. -/
def dictInsert : Captures → String → Value → Captures
  | [], k, v => [(k, v)]
  | (k', v') :: rest, k, v =>
      if k' = k then (k', v) :: rest else (k', v') :: dictInsert rest k v

/-- Python `{**a, **b}`. -/
def dictMerge (a b : Captures) : Captures :=
  b.foldl (fun acc kv => dictInsert acc kv.1 kv.2) a

/-- Dictionary lookup. -/
def dictGet : Captures → String → Option Value
  | [], _ => Option.none
  | (k', v') :: rest, k => if k' = k then some v' else dictGet rest k

/-- Field lookup on a node's attribute list (Python `getattr`). -/
def lookupField : List (String × Value) → String → Option Value
  | [], _ => Option.none
  | (k, v) :: rest, name => if k = name then some v else lookupField rest name

/-- `getattr(node, name)` for values; non-nodes have no attributes. -/
def getAttr : Value → String → Option Value
  | .vnode (.mk _ flds), name => lookupField flds name
  | _, _ => Option.none

/-- A sequence element as the attribute value it is passed as. -/
def elemToValue : Elem → Value
  | .emaybe => .vmaybe
  | .enode n => .vnode n

/-- Python `value.__class__.__name__`. -/
def className : Value → String
  | .vnode (.mk tag _) => tag
  | .vstr _ => "str"
  | .vbool _ => "bool"
  | .vnone => "NoneType"
  | .vmaybe => "MaybeSentinel"
  | .vseq _ => "list"

/-- Python `matcher.__class__.__name__` for the matcher kinds that reach the
class-name comparison in `_node_matches`. -/
def mclassName : Matcher → String
  | .doNotCare => "DoNotCareSentinel"
  | .mstr _ => "str"
  | .mbool _ => "bool"
  | .mnone => "NoneType"
  | .mseq _ => "list"
  | .concrete tag _ => tag
  | .oneOf _ => "OneOf"
  | .allOf _ => "AllOf"
  | .inverseOf _ => "_InverseOf"
  | .extractNode _ _ => "_ExtractMatchingNode"
  | .matchIfTrue _ => "MatchIfTrue"
  | .matchMetadata _ _ => "MatchMetadata"
  | .matchMetadataIfTrue _ _ => "MatchMetadataIfTrue"
  | .atLeastN _ _ => "AtLeastN"
  | .atMostN _ _ => "AtMostN"

mutual

/-- Structural equality of values (Python `==` as used on metadata values). -/
def valueEq : Value → Value → Bool
  | .vnone, .vnone => true
  | .vbool a, .vbool b => a == b
  | .vstr a, .vstr b => a == b
  | .vmaybe, .vmaybe => true
  | .vnode a, .vnode b => nodeEq a b
  | .vseq a, .vseq b => elemsEq a b
  | _, _ => false

def nodeEq : Node → Node → Bool
  | .mk t1 f1, .mk t2 f2 => t1 == t2 && fieldsEq f1 f2

def fieldsEq : List (String × Value) → List (String × Value) → Bool
  | [], [] => true
  | (k1, v1) :: r1, (k2, v2) :: r2 => k1 == k2 && valueEq v1 v2 && fieldsEq r1 r2
  | _, _ => false

def elemsEq : List Elem → List Elem → Bool
  | [], [] => true
  | e1 :: r1, e2 :: r2 => elemEq e1 e2 && elemsEq r1 r2
  | _, _ => false

def elemEq : Elem → Elem → Bool
  | .emaybe, .emaybe => true
  | .enode a, .enode b => nodeEq a b
  | _, _ => false

end

/-- `(isinstance(m, AtLeastN) and m.n == 0) or isinstance(m, AtMostN)` —
the matchers allowed to remain when the node sequence is exhausted. -/
def isZeroQuant : Matcher → Bool
  | .atLeastN _ 0 => true
  | .atMostN _ _ => true
  | _ => false

theorem lookupField_size {flds : List (String × Value)} {name : String}
    {v : Value} (h : lookupField flds name = some v) :
    sizeOf v < sizeOf flds := by
  induction flds with
  | nil => simp [lookupField] at h
  | cons hd tl ih =>
      obtain ⟨k, v'⟩ := hd
      simp only [lookupField] at h
      by_cases hk : k = name
      · simp [hk] at h
        subst h
        simp
        omega
      · simp [hk] at h
        have := ih h
        simp
        omega

theorem getAttr_size {v : Value} {name : String} {a : Value}
    (h : getAttr v name = some a) : sizeOf a < sizeOf v := by
  cases v with
  | vnode n =>
      cases n with
      | mk tag flds =>
          simp only [getAttr] at h
          have := lookupField_size h
          simp
          omega
  | vnone => simp [getAttr] at h
  | vbool b => simp [getAttr] at h
  | vstr s => simp [getAttr] at h
  | vseq es => simp [getAttr] at h
  | vmaybe => simp [getAttr] at h

@[simp] theorem elemToValue_size (x : Elem) : sizeOf (elemToValue x) = sizeOf x := by
  cases x <;> simp [elemToValue]

mutual

/-- `_matches` (lines 1307–1351 of `_matcher_base.py`). -/
def matchesFn (lk : Lookup) (v : Value) (m : Matcher) : Res :=
  match v with
  | .vmaybe =>
      match m with
      | .inverseOf _ => .ok []
      | _ => .fail
  | vo =>
      match m with
      | .oneOf opts => matchesOneOf lk vo opts
      | .allOf opts => matchesAllOf lk vo opts []
      | mo => nodeMatches lk vo mo

termination_by (sizeOf v, sizeOf m, 3)
decreasing_by
all_goals simp_wf
all_goals
  first
  | (apply Prod.Lex.right; apply Prod.Lex.right; decide)
  | (apply Prod.Lex.right; apply Prod.Lex.left; simp_arith)
  | (apply Prod.Lex.left; simp_arith)
  | (apply Prod.Lex.left; exact getAttr_size (by assumption))
/-- The `OneOf` loop of `_matches` (first success wins). -/
def matchesOneOf (lk : Lookup) (v : Value) (opts : List Matcher) : Res :=
  match opts with
  | [] => .fail
  | o :: rest =>
      match nodeMatches lk v o with
      | .ok c => .ok c
      | .err e => .err e
      | .fail => matchesOneOf lk v rest

termination_by (sizeOf v, sizeOf opts, 0)
decreasing_by
all_goals simp_wf
all_goals
  first
  | (apply Prod.Lex.right; apply Prod.Lex.right; decide)
  | (apply Prod.Lex.right; apply Prod.Lex.left; simp_arith)
  | (apply Prod.Lex.left; simp_arith)
  | (apply Prod.Lex.left; exact getAttr_size (by assumption))
/-- The `AllOf` loop of `_matches` (all must succeed; captures merged). -/
def matchesAllOf (lk : Lookup) (v : Value) (opts : List Matcher) (acc : Captures) : Res :=
  match opts with
  | [] => .ok acc
  | o :: rest =>
      match nodeMatches lk v o with
      | .ok c => matchesAllOf lk v rest (dictMerge acc c)
      | .err e => .err e
      | .fail => .fail

termination_by (sizeOf v, sizeOf opts, 0)
decreasing_by
all_goals simp_wf
all_goals
  first
  | (apply Prod.Lex.right; apply Prod.Lex.right; decide)
  | (apply Prod.Lex.right; apply Prod.Lex.left; simp_arith)
  | (apply Prod.Lex.left; simp_arith)
  | (apply Prod.Lex.left; exact getAttr_size (by assumption))
/-- `_node_matches` (lines 1224–1304). -/
def nodeMatches (lk : Lookup) (v : Value) (m : Matcher) : Res :=
  match m with
  | .inverseOf inner =>
      match nodeMatches lk v inner with
      | .ok _ => .fail
      | .fail => .ok []
      | .err e => .err e
  | .extractNode inner nm =>
      match nodeMatches lk v inner with
      | .ok c => .ok (dictInsert c nm v)
      | .fail => .fail
      | .err e => .err e
  | .matchIfTrue f => if f v then .ok [] else .fail
  | .matchMetadata _ _ => metadataMatches lk v m
  | .matchMetadataIfTrue _ _ => metadataMatches lk v m
  | .concrete tag flds =>
      if className v = tag then nodeFields lk v flds [] else .fail
  | _ => if className v = mclassName m then .err "TypeError" else .fail

termination_by (sizeOf v, sizeOf m, 2)
decreasing_by
all_goals simp_wf
all_goals
  first
  | (apply Prod.Lex.right; apply Prod.Lex.right; decide)
  | (apply Prod.Lex.right; apply Prod.Lex.left; simp_arith)
  | (apply Prod.Lex.left; simp_arith)
  | (apply Prod.Lex.left; exact getAttr_size (by assumption))
/-- The per-field loop of `_node_matches` (lines 1280–1304); `acc` is
`all_captures`.  The reserved name `"metadata"` dispatches to
`_metadata_matches`; other fields fetch the node attribute
(`getattr` raising on a missing attribute) and use `_attribute_matches`. -/
def nodeFields (lk : Lookup) (v : Value) (flds : List (String × Matcher))
    (acc : Captures) : Res :=
  match flds with
  | [] => .ok acc
  | (name, fm) :: rest =>
      if name = "metadata" then
        match fm with
        | .doNotCare => nodeFields lk v rest acc
        | _ =>
            match metadataMatches lk v fm with
            | .ok c => nodeFields lk v rest (dictMerge acc c)
            | .fail => .fail
            | .err e => .err e
      else
        match h : getAttr v name with
        | some actual =>
            match attributeMatches lk actual fm with
            | .ok c => nodeFields lk v rest (dictMerge acc c)
            | .fail => .fail
            | .err e => .err e
        | Option.none => .err "AttributeError"

termination_by (sizeOf v, sizeOf flds, 0)
decreasing_by
all_goals simp_wf
all_goals
  first
  | (apply Prod.Lex.right; apply Prod.Lex.right; decide)
  | (apply Prod.Lex.right; apply Prod.Lex.left; simp_arith)
  | (apply Prod.Lex.left; simp_arith)
  | (apply Prod.Lex.left; exact getAttr_size (by assumption))
/-- `_metadata_matches` (lines 1168–1221). -/
def metadataMatches (lk : Lookup) (v : Value) (m : Matcher) : Res :=
  match m with
  | .oneOf opts => metadataOneOf lk v opts
  | .allOf opts => metadataAllOf lk v opts []
  | .inverseOf inner =>
      match metadataMatches lk v inner with
      | .ok _ => .fail
      | .fail => .ok []
      | .err e => .err e
  | .extractNode inner nm =>
      match metadataMatches lk v inner with
      | .ok c => .ok (dictInsert c nm v)
      | .fail => .fail
      | .err e => .err e
  | .matchMetadataIfTrue k f =>
      match lk k v with
      | Option.none => .fail
      | some a => if f a then .ok [] else .fail
  | .matchMetadata k mv =>
      match lk k v with
      | Option.none => .fail
      | some a => if valueEq a mv then .ok [] else .fail
  | _ => .err "Logic error!"

termination_by (sizeOf v, sizeOf m, 1)
decreasing_by
all_goals simp_wf
all_goals
  first
  | (apply Prod.Lex.right; apply Prod.Lex.right; decide)
  | (apply Prod.Lex.right; apply Prod.Lex.left; simp_arith)
  | (apply Prod.Lex.left; simp_arith)
  | (apply Prod.Lex.left; exact getAttr_size (by assumption))
/-- The `OneOf` loop of `_metadata_matches`. -/
def metadataOneOf (lk : Lookup) (v : Value) (opts : List Matcher) : Res :=
  match opts with
  | [] => .fail
  | o :: rest =>
      match metadataMatches lk v o with
      | .ok c => .ok c
      | .err e => .err e
      | .fail => metadataOneOf lk v rest

termination_by (sizeOf v, sizeOf opts, 0)
decreasing_by
all_goals simp_wf
all_goals
  first
  | (apply Prod.Lex.right; apply Prod.Lex.right; decide)
  | (apply Prod.Lex.right; apply Prod.Lex.left; simp_arith)
  | (apply Prod.Lex.left; simp_arith)
  | (apply Prod.Lex.left; exact getAttr_size (by assumption))
/-- The `AllOf` loop of `_metadata_matches`. -/
def metadataAllOf (lk : Lookup) (v : Value) (opts : List Matcher) (acc : Captures) : Res :=
  match opts with
  | [] => .ok acc
  | o :: rest =>
      match metadataMatches lk v o with
      | .ok c => metadataAllOf lk v rest (dictMerge acc c)
      | .err e => .err e
      | .fail => .fail

termination_by (sizeOf v, sizeOf opts, 0)
decreasing_by
all_goals simp_wf
all_goals
  first
  | (apply Prod.Lex.right; apply Prod.Lex.right; decide)
  | (apply Prod.Lex.right; apply Prod.Lex.left; simp_arith)
  | (apply Prod.Lex.left; simp_arith)
  | (apply Prod.Lex.left; exact getAttr_size (by assumption))
/-- `_attribute_matches` (lines 1058–1165). -/
def attributeMatches (lk : Lookup) (v : Value) (m : Matcher) : Res :=
  match m with
  | .doNotCare => .ok []
  | .inverseOf inner =>
      match attributeMatches lk v inner with
      | .ok _ => .fail
      | .fail => .ok []
      | .err e => .err e
  | .extractNode inner nm =>
      match attributeMatches lk v inner with
      | .ok c => .ok (dictInsert c nm v)
      | .fail => .fail
      | .err e => .err e
  | .matchIfTrue f => if f v then .ok [] else .fail
  | .mnone =>
      match v with
      | .vnone => .ok []
      | _ => .fail
  | .mstr s =>
      match v with
      | .vstr t => if t = s then .ok [] else .fail
      | _ => .fail
  | .mbool b =>
      match v with
      | .vbool c => if c = b then .ok [] else .fail
      | _ => .fail
  | mo =>
      match v with
      | .vseq xs =>
          match mo with
          | .oneOf opts => attrSeqOneOf lk xs opts
          | .allOf opts => attrSeqAllOf lk xs opts []
          | .mseq ms => sequenceMatches lk xs ms
          | _ => .fail
      | vo => matchesFn lk vo mo

termination_by (sizeOf v, sizeOf m, 4)
decreasing_by
all_goals simp_wf
all_goals
  first
  | (apply Prod.Lex.right; apply Prod.Lex.right; decide)
  | (apply Prod.Lex.right; apply Prod.Lex.left; simp_arith)
  | (apply Prod.Lex.left; simp_arith)
  | (apply Prod.Lex.left; exact getAttr_size (by assumption))
/-- The sequence `OneOf` loop of `_attribute_matches` (lines 1107–1116).
A `MatchIfTrue` option evaluates `matcher.func(node)` where `matcher` is
the `OneOf` object itself, which has no `func` attribute: this raises
`AttributeError`. -/
def attrSeqOneOf (lk : Lookup) (xs : List Elem) (opts : List Matcher) : Res :=
  match opts with
  | [] => .fail
  | o :: rest =>
      match o with
      | .mseq ms =>
          match sequenceMatches lk xs ms with
          | .ok c => .ok c
          | .err e => .err e
          | .fail => attrSeqOneOf lk xs rest
      | .matchIfTrue _ => .err "AttributeError"
      | _ => attrSeqOneOf lk xs rest

termination_by (sizeOf xs, sizeOf opts, 0)
decreasing_by
all_goals simp_wf
all_goals
  first
  | (apply Prod.Lex.right; apply Prod.Lex.right; decide)
  | (apply Prod.Lex.right; apply Prod.Lex.left; simp_arith)
  | (apply Prod.Lex.left; simp_arith)
  | (apply Prod.Lex.left; exact getAttr_size (by assumption))
/-- The sequence `AllOf` loop of `_attribute_matches` (lines 1117–1133).
As in the `OneOf` loop, a `MatchIfTrue` option evaluates `matcher.func`
on the `AllOf` object and raises `AttributeError`; an option of any other
non-sequence kind fails the whole match. -/
def attrSeqAllOf (lk : Lookup) (xs : List Elem) (opts : List Matcher) (acc : Captures) : Res :=
  match opts with
  | [] => .ok acc
  | o :: rest =>
      match o with
      | .mseq ms =>
          match sequenceMatches lk xs ms with
          | .ok c => attrSeqAllOf lk xs rest (dictMerge acc c)
          | .err e => .err e
          | .fail => .fail
      | .matchIfTrue _ => .err "AttributeError"
      | _ => .fail

termination_by (sizeOf xs, sizeOf opts, 0)
decreasing_by
all_goals simp_wf
all_goals
  first
  | (apply Prod.Lex.right; apply Prod.Lex.right; decide)
  | (apply Prod.Lex.right; apply Prod.Lex.left; simp_arith)
  | (apply Prod.Lex.left; simp_arith)
  | (apply Prod.Lex.left; exact getAttr_size (by assumption))
/-- `_sequence_matches` (lines 934–1051).  The greedy/non-greedy wildcard
branches fall through, when all their attempts fail, to the ordinary
trailing code (`seqOrdinary`), exactly as the Python control flow does. -/
def sequenceMatches (lk : Lookup) (xs : List Elem) (ms : List Matcher) : Res :=
  match xs, ms with
  | [], [] => .ok []
  | [], m :: mrest => if (m :: mrest).all isZeroQuant then .ok [] else .fail
  | _ :: _, [] => .fail
  | x :: rest, m :: mrest =>
      match m with
      | .doNotCare => sequenceMatches lk rest mrest
      | .atMostN inner n =>
          if 0 < n then
            match attributeMatches lk (elemToValue x) inner with
            | .err e => .err e
            | .ok ac =>
                match sequenceMatches lk rest (.atMostN inner (n - 1) :: mrest) with
                | .ok sc => .ok (dictMerge ac sc)
                | .err e => .err e
                | .fail =>
                    match sequenceMatches lk (x :: rest) mrest with
                    | .ok sc2 => .ok sc2
                    | .err e => .err e
                    | .fail => seqOrdinary lk x rest (.atMostN inner n) mrest
            | .fail =>
                match sequenceMatches lk (x :: rest) mrest with
                | .ok sc2 => .ok sc2
                | .err e => .err e
                | .fail => seqOrdinary lk x rest (.atMostN inner n) mrest
          else
            match sequenceMatches lk (x :: rest) mrest with
            | .ok sc2 => .ok sc2
            | .err e => .err e
            | .fail => seqOrdinary lk x rest (.atMostN inner n) mrest
      | .atLeastN inner n =>
          if 0 < n then
            match attributeMatches lk (elemToValue x) inner with
            | .err e => .err e
            | .ok ac =>
                match sequenceMatches lk rest (.atLeastN inner (n - 1) :: mrest) with
                | .ok sc => .ok (dictMerge ac sc)
                | .err e => .err e
                | .fail => seqOrdinary lk x rest (.atLeastN inner n) mrest
            | .fail => seqOrdinary lk x rest (.atLeastN inner n) mrest
          else
            match attributeMatches lk (elemToValue x) inner with
            | .err e => .err e
            | .ok ac =>
                match sequenceMatches lk rest (.atLeastN inner n :: mrest) with
                | .ok sc => .ok (dictMerge ac sc)
                | .err e => .err e
                | .fail =>
                    match sequenceMatches lk (x :: rest) mrest with
                    | .ok sc2 => .ok sc2
                    | .err e => .err e
                    | .fail => seqOrdinary lk x rest (.atLeastN inner n) mrest
            | .fail =>
                match sequenceMatches lk (x :: rest) mrest with
                | .ok sc2 => .ok sc2
                | .err e => .err e
                | .fail => seqOrdinary lk x rest (.atLeastN inner n) mrest
      | .extractNode inner nm =>
          match sequenceMatches lk (x :: rest) (inner :: mrest) with
          | .ok sc => .ok (dictMerge [(nm, .vseq (x :: rest))] sc)
          | .fail => .fail
          | .err e => .err e
      | mo => seqOrdinary lk x rest mo mrest

termination_by (sizeOf xs, sizeOf ms, 6)
decreasing_by
all_goals simp_wf
all_goals
  first
  | (apply Prod.Lex.right; apply Prod.Lex.right; decide)
  | (apply Prod.Lex.right; apply Prod.Lex.left; simp_arith)
  | (apply Prod.Lex.left; simp_arith)
  | (apply Prod.Lex.left; exact getAttr_size (by assumption))
/-- Lines 1043–1051 of `_sequence_matches`: match the head element with
`_matches`, consume it, and recurse on the tails. -/
def seqOrdinary (lk : Lookup) (x : Elem) (rest : List Elem) (m : Matcher)
    (mrest : List Matcher) : Res :=
  match matchesFn lk (elemToValue x) m with
  | .ok mc =>
      match sequenceMatches lk rest mrest with
      | .ok sc => .ok (dictMerge mc sc)
      | .fail => .fail
      | .err e => .err e
  | .fail => .fail
  | .err e => .err e

termination_by (sizeOf (x :: rest), sizeOf (m :: mrest), 5)
decreasing_by
all_goals simp_wf
all_goals
  first
  | (apply Prod.Lex.right; apply Prod.Lex.right; decide)
  | (apply Prod.Lex.right; apply Prod.Lex.left; simp_arith)
  | (apply Prod.Lex.left; simp_arith)
  | (apply Prod.Lex.left; exact getAttr_size (by assumption))
end

/-- The argument of `extract` / `matches` / `findall` / `extractall`:
a real node, a `MaybeSentinel`, or a `RemovalSentinel`. -/
inductive TreeArg : Type where
  | removal
  | maybe
  | node (n : Node)

/-- The non-removal tree arguments as attribute values. -/
def treeToValue : TreeArg → Value
  | .removal => .vnone
  | .maybe => .vmaybe
  | .node n => .vnode n

/-- `isinstance(matcher, (AtLeastN, AtMostN, MatchIfTrue, _BaseMetadataMatcher))`
— the matcher kinds `extract` rejects at top level. -/
def isForbiddenRoot : Matcher → Bool
  | .atLeastN _ _ => true
  | .atMostN _ _ => true
  | .matchIfTrue _ => true
  | .matchMetadata _ _ => true
  | .matchMetadataIfTrue _ _ => true
  | _ => false

/-- `isinstance(matcher, (AtLeastN, AtMostN))` — the matcher kinds
`_find_or_extract_all` rejects at top level. -/
def isBareWildcard : Matcher → Bool
  | .atLeastN _ _ => true
  | .atMostN _ _ => true
  | _ => false

/-- `extract` (lines 1386–1430): `None` for a `RemovalSentinel`, `None` for a
forbidden root matcher, otherwise `_matches` under the injected resolver. -/
def extract (t : TreeArg) (m : Matcher) (lk : Lookup) : Res :=
  match t with
  | .removal => .fail
  | t' => if isForbiddenRoot m then .fail else matchesFn lk (treeToValue t') m

/-- `matches` (lines 1433–1454): `extract(...) is not None`; exceptions
raised during matching propagate. -/
def matchesB (t : TreeArg) (m : Matcher) (lk : Lookup) : Except String Bool :=
  match extract t m lk with
  | .ok _ => .ok true
  | .fail => .ok false
  | .err e => .error e

mutual

/-- Pre-order traversal of a node: the node itself, then the children of
each field in declaration order (the visitor contract used by `findall`). -/
def preorderNode (n : Node) : List Node :=
  match n with
  | .mk _ flds => n :: preorderFields flds

def preorderFields (flds : List (String × Value)) : List Node :=
  match flds with
  | [] => []
  | (_, v) :: rest => preorderValue v ++ preorderFields rest

def preorderValue (v : Value) : List Node :=
  match v with
  | .vnode n => preorderNode n
  | .vseq es => preorderElems es
  | _ => []

def preorderElems (es : List Elem) : List Node :=
  match es with
  | [] => []
  | .enode n :: rest => preorderNode n ++ preorderElems rest
  | .emaybe :: rest => preorderElems rest

end

/-- The `_FindAllVisitor` loop: run `_matches` on every node in pre-order,
recording matching nodes and their capture dictionaries; an exception
raised by `_matches` propagates out of the traversal. -/
def runFind (lk : Lookup) (m : Matcher) : List Node → Except String (List Node × List Captures)
  | [] => .ok ([], [])
  | n :: rest =>
      match matchesFn lk (.vnode n) m with
      | .err e => .error e
      | .ok c =>
          match runFind lk m rest with
          | .ok (ns, cs) => .ok (n :: ns, c :: cs)
          | .error e => .error e
      | .fail => runFind lk m rest

/-- `_find_or_extract_all` (lines 1489–1539): empty results for sentinel
trees and for bare wildcard root matchers, otherwise a full pre-order
traversal. -/
def findOrExtractAll (t : TreeArg) (m : Matcher) (lk : Lookup) :
    Except String (List Node × List Captures) :=
  match t with
  | .removal => .ok ([], [])
  | .maybe => .ok ([], [])
  | .node n =>
      if isBareWildcard m then .ok ([], [])
      else runFind lk m (preorderNode n)

/-- `findall` (lines 1542–1574). -/
def findall (t : TreeArg) (m : Matcher) (lk : Lookup) : Except String (List Node) :=
  match findOrExtractAll t m lk with
  | .ok (ns, _) => .ok ns
  | .error e => .error e

/-- `extractall` (lines 1577–1613). -/
def extractall (t : TreeArg) (m : Matcher) (lk : Lookup) : Except String (List Captures) :=
  match findOrExtractAll t m lk with
  | .ok (_, cs) => .ok cs
  | .error e => .error e

/-- The option-normalising loop of `OneOf.__init__` (lines 133–142):
an `AllOf` argument raises, a `OneOf` argument is flattened into its
options, any other argument is kept. -/
def cOneOfOpts : List Matcher → Except String (List Matcher)
  | [] => .ok []
  | a :: rest =>
      match a with
      | .allOf _ => .error "Cannot use AllOf and OneOf in combination!"
      | .oneOf os =>
          match cOneOfOpts rest with
          | .ok r => .ok (os ++ r)
          | .error e => .error e
      | _ =>
          match cOneOfOpts rest with
          | .ok r => .ok (a :: r)
          | .error e => .error e

/-- The `OneOf` constructor. -/
def cOneOf (args : List Matcher) : Except String Matcher :=
  match cOneOfOpts args with
  | .ok opts => .ok (.oneOf opts)
  | .error e => .error e

/-- The option-normalising loop of `AllOf.__init__` (lines 207–216). -/
def cAllOfOpts : List Matcher → Except String (List Matcher)
  | [] => .ok []
  | a :: rest =>
      match a with
      | .oneOf _ => .error "Cannot use AllOf and OneOf in combination!"
      | .allOf os =>
          match cAllOfOpts rest with
          | .ok r => .ok (os ++ r)
          | .error e => .error e
      | _ =>
          match cAllOfOpts rest with
          | .ok r => .ok (a :: r)
          | .error e => .error e

/-- The `AllOf` constructor. -/
def cAllOf (args : List Matcher) : Except String Matcher :=
  match cAllOfOpts args with
  | .ok opts => .ok (.allOf opts)
  | .error e => .error e

mutual

/-- `DoesNotMatch` (lines 846–902): dispatches to the `__invert__` of a
known matcher kind (De Morgan normalisation for `OneOf` / `AllOf`,
unwrapping for `_InverseOf`, predicate negation for the `IfTrue` kinds,
an exception for `_ExtractMatchingNode`), and wraps anything else in
`_InverseOf`. -/
def doesNotMatch : Matcher → Except String Matcher
  | .oneOf opts =>
      match doesNotMatchList opts with
      | .ok l => cAllOf l
      | .error e => .error e
  | .allOf opts =>
      match doesNotMatchList opts with
      | .ok l => cOneOf l
      | .error e => .error e
  | .inverseOf m => .ok m
  | .extractNode _ _ => .error "Cannot invert a SaveMatchedNode."
  | .matchIfTrue f => .ok (.matchIfTrue (fun v => !(f v)))
  | .matchMetadataIfTrue k f => .ok (.matchMetadataIfTrue k (fun v => !(f v)))
  | m => .ok (.inverseOf m)

/-- The list comprehension `[DoesNotMatch(m) for m in options]`. -/
def doesNotMatchList : List Matcher → Except String (List Matcher)
  | [] => .ok []
  | a :: rest =>
      match doesNotMatch a with
      | .ok b =>
          match doesNotMatchList rest with
          | .ok l => .ok (b :: l)
          | .error e => .error e
      | .error e => .error e

end

/-- Combines the head-element match result with the (fuelled) result of the
tail recursion, as lines 1043–1051 of `_sequence_matches` do. -/
def seqOrdRes (mres : Res) (tailRes : Option Res) : Option Res :=
  match mres with
  | .ok mc =>
      match tailRes with
      | Option.none => Option.none
      | some (.ok sc) => some (.ok (dictMerge mc sc))
      | some .fail => some .fail
      | some (.err e) => some (.err e)
  | .fail => some .fail
  | .err e => some (.err e)

/-- A step-indexed (fuel-consuming) transcription of `_sequence_matches`:
identical branch structure, with every recursive sequence call guarded by
fuel.  `Option.none` means the fuel ran out.  Together with
`seqFuel_adequate` this exhibits a concrete well-founded measure under
which the backtracking sequence search terminates. -/
def seqFuel (lk : Lookup) : Nat → List Elem → List Matcher → Option Res
  | 0, _, _ => Option.none
  | _ + 1, [], [] => some (.ok [])
  | _ + 1, [], m :: mrest =>
      some (if (m :: mrest).all isZeroQuant then .ok [] else .fail)
  | _ + 1, _ :: _, [] => some .fail
  | f + 1, x :: rest, m :: mrest =>
      match m with
      | .doNotCare => seqFuel lk f rest mrest
      | .atMostN inner n =>
          if 0 < n then
            match attributeMatches lk (elemToValue x) inner with
            | .err e => some (.err e)
            | .ok ac =>
                match seqFuel lk f rest (.atMostN inner (n - 1) :: mrest) with
                | Option.none => Option.none
                | some (.ok sc) => some (.ok (dictMerge ac sc))
                | some (.err e) => some (.err e)
                | some .fail =>
                    match seqFuel lk f (x :: rest) mrest with
                    | Option.none => Option.none
                    | some (.ok sc2) => some (.ok sc2)
                    | some (.err e) => some (.err e)
                    | some .fail =>
                        seqOrdRes (matchesFn lk (elemToValue x) (.atMostN inner n))
                          (seqFuel lk f rest mrest)
            | .fail =>
                match seqFuel lk f (x :: rest) mrest with
                | Option.none => Option.none
                | some (.ok sc2) => some (.ok sc2)
                | some (.err e) => some (.err e)
                | some .fail =>
                    seqOrdRes (matchesFn lk (elemToValue x) (.atMostN inner n))
                      (seqFuel lk f rest mrest)
          else
            match seqFuel lk f (x :: rest) mrest with
            | Option.none => Option.none
            | some (.ok sc2) => some (.ok sc2)
            | some (.err e) => some (.err e)
            | some .fail =>
                seqOrdRes (matchesFn lk (elemToValue x) (.atMostN inner n))
                  (seqFuel lk f rest mrest)
      | .atLeastN inner n =>
          if 0 < n then
            match attributeMatches lk (elemToValue x) inner with
            | .err e => some (.err e)
            | .ok ac =>
                match seqFuel lk f rest (.atLeastN inner (n - 1) :: mrest) with
                | Option.none => Option.none
                | some (.ok sc) => some (.ok (dictMerge ac sc))
                | some (.err e) => some (.err e)
                | some .fail =>
                    seqOrdRes (matchesFn lk (elemToValue x) (.atLeastN inner n))
                      (seqFuel lk f rest mrest)
            | .fail =>
                seqOrdRes (matchesFn lk (elemToValue x) (.atLeastN inner n))
                  (seqFuel lk f rest mrest)
          else
            match attributeMatches lk (elemToValue x) inner with
            | .err e => some (.err e)
            | .ok ac =>
                match seqFuel lk f rest (.atLeastN inner n :: mrest) with
                | Option.none => Option.none
                | some (.ok sc) => some (.ok (dictMerge ac sc))
                | some (.err e) => some (.err e)
                | some .fail =>
                    match seqFuel lk f (x :: rest) mrest with
                    | Option.none => Option.none
                    | some (.ok sc2) => some (.ok sc2)
                    | some (.err e) => some (.err e)
                    | some .fail =>
                        seqOrdRes (matchesFn lk (elemToValue x) (.atLeastN inner n))
                          (seqFuel lk f rest mrest)
            | .fail =>
                match seqFuel lk f (x :: rest) mrest with
                | Option.none => Option.none
                | some (.ok sc2) => some (.ok sc2)
                | some (.err e) => some (.err e)
                | some .fail =>
                    seqOrdRes (matchesFn lk (elemToValue x) (.atLeastN inner n))
                      (seqFuel lk f rest mrest)
      | .extractNode inner nm =>
          match seqFuel lk f (x :: rest) (inner :: mrest) with
          | Option.none => Option.none
          | some (.ok sc) => some (.ok (dictMerge [(nm, .vseq (x :: rest))] sc))
          | some .fail => some .fail
          | some (.err e) => some (.err e)
      | mo => seqOrdRes (matchesFn lk (elemToValue x) mo) (seqFuel lk f rest mrest)

theorem seqOrdinary_eq (lk : Lookup) (x : Elem) (rest : List Elem) (m : Matcher)
    (mrest : List Matcher) :
    seqOrdinary lk x rest m mrest =
      match matchesFn lk (elemToValue x) m with
      | .ok mc =>
          match sequenceMatches lk rest mrest with
          | .ok sc => .ok (dictMerge mc sc)
          | .fail => .fail
          | .err e => .err e
      | .fail => .fail
      | .err e => .err e := by
  rw [seqOrdinary.eq_def]

theorem seqM_nil_nil (lk : Lookup) : sequenceMatches lk [] [] = .ok [] := by
  rw [sequenceMatches.eq_def]

theorem seqM_nil_cons (lk : Lookup) (m : Matcher) (mrest : List Matcher) :
    sequenceMatches lk [] (m :: mrest) =
      if (m :: mrest).all isZeroQuant then .ok [] else .fail := by
  rw [sequenceMatches.eq_def]

theorem seqM_cons_nil (lk : Lookup) (x : Elem) (rest : List Elem) :
    sequenceMatches lk (x :: rest) [] = .fail := by
  rw [sequenceMatches.eq_def]

theorem seqM_dnc (lk : Lookup) (x : Elem) (rest : List Elem) (mrest : List Matcher) :
    sequenceMatches lk (x :: rest) (.doNotCare :: mrest) =
      sequenceMatches lk rest mrest := by
  rw [sequenceMatches.eq_def]

def isSeqSpecial : Matcher → Bool
  | .doNotCare => true
  | .atMostN _ _ => true
  | .atLeastN _ _ => true
  | .extractNode _ _ => true
  | _ => false

theorem seqM_extract (lk : Lookup) (x : Elem) (rest : List Elem) (inner : Matcher)
    (nm : String) (mrest : List Matcher) :
    sequenceMatches lk (x :: rest) (.extractNode inner nm :: mrest) =
      match sequenceMatches lk (x :: rest) (inner :: mrest) with
      | .ok sc => .ok (dictMerge [(nm, .vseq (x :: rest))] sc)
      | .fail => .fail
      | .err e => .err e := by
  rw [sequenceMatches.eq_def]

theorem seqM_ord (lk : Lookup) (x : Elem) (rest : List Elem) (m : Matcher)
    (mrest : List Matcher) (h : isSeqSpecial m = false) :
    sequenceMatches lk (x :: rest) (m :: mrest) = seqOrdinary lk x rest m mrest := by
  cases m <;> simp [isSeqSpecial] at h <;> rw [sequenceMatches.eq_def]

theorem seqM_atMost (lk : Lookup) (x : Elem) (rest : List Elem) (inner : Matcher)
    (n : Nat) (mrest : List Matcher) :
    sequenceMatches lk (x :: rest) (.atMostN inner n :: mrest) =
      if 0 < n then
        match attributeMatches lk (elemToValue x) inner with
        | .err e => .err e
        | .ok ac =>
            match sequenceMatches lk rest (.atMostN inner (n - 1) :: mrest) with
            | .ok sc => .ok (dictMerge ac sc)
            | .err e => .err e
            | .fail =>
                match sequenceMatches lk (x :: rest) mrest with
                | .ok sc2 => .ok sc2
                | .err e => .err e
                | .fail => seqOrdinary lk x rest (.atMostN inner n) mrest
        | .fail =>
            match sequenceMatches lk (x :: rest) mrest with
            | .ok sc2 => .ok sc2
            | .err e => .err e
            | .fail => seqOrdinary lk x rest (.atMostN inner n) mrest
      else
        match sequenceMatches lk (x :: rest) mrest with
        | .ok sc2 => .ok sc2
        | .err e => .err e
        | .fail => seqOrdinary lk x rest (.atMostN inner n) mrest := by
  rw [sequenceMatches.eq_def]

theorem seqM_atLeast (lk : Lookup) (x : Elem) (rest : List Elem) (inner : Matcher)
    (n : Nat) (mrest : List Matcher) :
    sequenceMatches lk (x :: rest) (.atLeastN inner n :: mrest) =
      if 0 < n then
        match attributeMatches lk (elemToValue x) inner with
        | .err e => .err e
        | .ok ac =>
            match sequenceMatches lk rest (.atLeastN inner (n - 1) :: mrest) with
            | .ok sc => .ok (dictMerge ac sc)
            | .err e => .err e
            | .fail => seqOrdinary lk x rest (.atLeastN inner n) mrest
        | .fail => seqOrdinary lk x rest (.atLeastN inner n) mrest
      else
        match attributeMatches lk (elemToValue x) inner with
        | .err e => .err e
        | .ok ac =>
            match sequenceMatches lk rest (.atLeastN inner n :: mrest) with
            | .ok sc => .ok (dictMerge ac sc)
            | .err e => .err e
            | .fail =>
                match sequenceMatches lk (x :: rest) mrest with
                | .ok sc2 => .ok sc2
                | .err e => .err e
                | .fail => seqOrdinary lk x rest (.atLeastN inner n) mrest
        | .fail =>
            match sequenceMatches lk (x :: rest) mrest with
            | .ok sc2 => .ok sc2
            | .err e => .err e
            | .fail => seqOrdinary lk x rest (.atLeastN inner n) mrest := by
  rw [sequenceMatches.eq_def]

theorem seqOrdRes_some (lk : Lookup) (x : Elem) (rest : List Elem) (m : Matcher)
    (mrest : List Matcher) :
    seqOrdRes (matchesFn lk (elemToValue x) m) (some (sequenceMatches lk rest mrest)) =
      some (seqOrdinary lk x rest m mrest) := by
  rw [seqOrdinary_eq]
  cases hm : matchesFn lk (elemToValue x) m <;>
    cases hs : sequenceMatches lk rest mrest <;> simp [seqOrdRes]

theorem matcher_size_pos (m : Matcher) : 0 < sizeOf m := by
  cases m <;> simp <;> omega

theorem seqFuel_adequate (lk : Lookup) : ∀ (f : Nat) (xs : List Elem) (ms : List Matcher),
    sizeOf xs + sizeOf ms < f →
    seqFuel lk f xs ms = some (sequenceMatches lk xs ms) := by
  intro f
  induction f with
  | zero => intro xs ms h; exact absurd h (by omega)
  | succ f ih =>
      intro xs ms h
      cases xs with
      | nil =>
          cases ms with
          | nil => simp only [seqFuel, seqM_nil_nil]
          | cons m mrest => simp only [seqFuel, seqM_nil_cons]
      | cons x rest =>
          cases ms with
          | nil => simp only [seqFuel, seqM_cons_nil]
          | cons m mrest =>
              have hm1 := matcher_size_pos m
              have hrest : sizeOf rest + sizeOf mrest < f := by simp at h ⊢; omega
              have hx : sizeOf (x :: rest) + sizeOf mrest < f := by simp at h ⊢; omega
              cases m with
              | doNotCare =>
                  simp only [seqFuel, seqM_dnc]
                  exact ih rest mrest (by simp at h ⊢; omega)
              | atMostN inner n =>
                  have hg : sizeOf rest + sizeOf (Matcher.atMostN inner (n - 1) :: mrest) < f := by
                    simp at h ⊢; omega
                  simp only [seqFuel]
                  rw [seqM_atMost]
                  by_cases hn : 0 < n
                  · simp only [if_pos hn]
                    cases hA : attributeMatches lk (elemToValue x) inner with
                    | err e => rfl
                    | ok ac =>
                        rw [ih rest _ hg]
                        cases hS : sequenceMatches lk rest (.atMostN inner (n - 1) :: mrest) with
                        | ok sc => rfl
                        | err e => rfl
                        | fail =>
                            rw [ih (x :: rest) mrest hx]
                            cases hS2 : sequenceMatches lk (x :: rest) mrest with
                            | ok sc2 => rfl
                            | err e => rfl
                            | fail => rw [ih rest mrest hrest]; exact seqOrdRes_some lk x rest _ mrest
                    | fail =>
                        rw [ih (x :: rest) mrest hx]
                        cases hS2 : sequenceMatches lk (x :: rest) mrest with
                        | ok sc2 => rfl
                        | err e => rfl
                        | fail => rw [ih rest mrest hrest]; exact seqOrdRes_some lk x rest _ mrest
                  · simp only [if_neg hn]
                    rw [ih (x :: rest) mrest hx]
                    cases hS2 : sequenceMatches lk (x :: rest) mrest with
                    | ok sc2 => rfl
                    | err e => rfl
                    | fail => rw [ih rest mrest hrest]; exact seqOrdRes_some lk x rest _ mrest
              | atLeastN inner n =>
                  have hg : sizeOf rest + sizeOf (Matcher.atLeastN inner (n - 1) :: mrest) < f := by
                    simp at h ⊢; omega
                  have hg0 : sizeOf rest + sizeOf (Matcher.atLeastN inner n :: mrest) < f := by
                    simp at h ⊢; omega
                  simp only [seqFuel]
                  rw [seqM_atLeast]
                  by_cases hn : 0 < n
                  · simp only [if_pos hn]
                    cases hA : attributeMatches lk (elemToValue x) inner with
                    | err e => rfl
                    | ok ac =>
                        rw [ih rest _ hg]
                        cases hS : sequenceMatches lk rest (.atLeastN inner (n - 1) :: mrest) with
                        | ok sc => rfl
                        | err e => rfl
                        | fail => rw [ih rest mrest hrest]; exact seqOrdRes_some lk x rest _ mrest
                    | fail => rw [ih rest mrest hrest]; exact seqOrdRes_some lk x rest _ mrest
                  · simp only [if_neg hn]
                    cases hA : attributeMatches lk (elemToValue x) inner with
                    | err e => rfl
                    | ok ac =>
                        rw [ih rest _ hg0]
                        cases hS : sequenceMatches lk rest (.atLeastN inner n :: mrest) with
                        | ok sc => rfl
                        | err e => rfl
                        | fail =>
                            rw [ih (x :: rest) mrest hx]
                            cases hS2 : sequenceMatches lk (x :: rest) mrest with
                            | ok sc2 => rfl
                            | err e => rfl
                            | fail => rw [ih rest mrest hrest]; exact seqOrdRes_some lk x rest _ mrest
                    | fail =>
                        rw [ih (x :: rest) mrest hx]
                        cases hS2 : sequenceMatches lk (x :: rest) mrest with
                        | ok sc2 => rfl
                        | err e => rfl
                        | fail => rw [ih rest mrest hrest]; exact seqOrdRes_some lk x rest _ mrest
              | extractNode inner nm =>
                  have hg : sizeOf (x :: rest) + sizeOf (inner :: mrest) < f := by
                    simp at h ⊢; omega
                  simp only [seqFuel]
                  rw [seqM_extract, ih (x :: rest) _ hg]
                  cases hS : sequenceMatches lk (x :: rest) (inner :: mrest) with
                  | ok sc => rfl
                  | err e => rfl
                  | fail => rfl
              | mstr s =>
                  simp only [seqFuel]
                  rw [seqM_ord lk x rest _ mrest (by rfl), ih rest mrest hrest]
                  exact seqOrdRes_some lk x rest _ mrest
              | mbool b =>
                  simp only [seqFuel]
                  rw [seqM_ord lk x rest _ mrest (by rfl), ih rest mrest hrest]
                  exact seqOrdRes_some lk x rest _ mrest
              | mnone =>
                  simp only [seqFuel]
                  rw [seqM_ord lk x rest _ mrest (by rfl), ih rest mrest hrest]
                  exact seqOrdRes_some lk x rest _ mrest
              | mseq ms' =>
                  simp only [seqFuel]
                  rw [seqM_ord lk x rest _ mrest (by rfl), ih rest mrest hrest]
                  exact seqOrdRes_some lk x rest _ mrest
              | concrete tag flds =>
                  simp only [seqFuel]
                  rw [seqM_ord lk x rest _ mrest (by rfl), ih rest mrest hrest]
                  exact seqOrdRes_some lk x rest _ mrest
              | oneOf opts =>
                  simp only [seqFuel]
                  rw [seqM_ord lk x rest _ mrest (by rfl), ih rest mrest hrest]
                  exact seqOrdRes_some lk x rest _ mrest
              | allOf opts =>
                  simp only [seqFuel]
                  rw [seqM_ord lk x rest _ mrest (by rfl), ih rest mrest hrest]
                  exact seqOrdRes_some lk x rest _ mrest
              | inverseOf im =>
                  simp only [seqFuel]
                  rw [seqM_ord lk x rest _ mrest (by rfl), ih rest mrest hrest]
                  exact seqOrdRes_some lk x rest _ mrest
              | matchIfTrue fn =>
                  simp only [seqFuel]
                  rw [seqM_ord lk x rest _ mrest (by rfl), ih rest mrest hrest]
                  exact seqOrdRes_some lk x rest _ mrest
              | matchMetadata k mv =>
                  simp only [seqFuel]
                  rw [seqM_ord lk x rest _ mrest (by rfl), ih rest mrest hrest]
                  exact seqOrdRes_some lk x rest _ mrest
              | matchMetadataIfTrue k fn =>
                  simp only [seqFuel]
                  rw [seqM_ord lk x rest _ mrest (by rfl), ih rest mrest hrest]
                  exact seqOrdRes_some lk x rest _ mrest

/-- `_construct_metadata_fetcher_null`: every metadata lookup is missing. -/
def nullLookup : Lookup := fun _ _ => Option.none

theorem matchesOneOf_nil (lk : Lookup) (v : Value) : matchesOneOf lk v [] = .fail := by
  rw [matchesOneOf.eq_def]

theorem matchesAllOf_nil (lk : Lookup) (v : Value) (acc : Captures) :
    matchesAllOf lk v [] acc = .ok acc := by
  rw [matchesAllOf.eq_def]

theorem matchesFn_maybe (lk : Lookup) (m : Matcher) :
    matchesFn lk .vmaybe m =
      match m with
      | .inverseOf _ => Res.ok []
      | _ => Res.fail := by
  rw [matchesFn.eq_def]

theorem C8_test (lk : Lookup) (k : String) (mv : Value) (v : Value) :
    metadataMatches lk v (.matchMetadata k mv) =
      match lk k v with
      | Option.none => Res.fail
      | some a => if valueEq a mv then Res.ok [] else Res.fail := by
  rw [metadataMatches.eq_def]

/-- The contribution of one argument to the normalised options of a
`OneOf` constructor call: `AllOf` is rejected, `OneOf` contributes its
options, anything else contributes itself. -/
def oneOfFlat : Matcher → Option (List Matcher)
  | .allOf _ => Option.none
  | .oneOf os => some os
  | m => some [m]

/-- The contribution of one argument to the normalised options of an
`AllOf` constructor call. -/
def allOfFlat : Matcher → Option (List Matcher)
  | .oneOf _ => Option.none
  | .allOf os => some os
  | m => some [m]

theorem cOneOfOpts_cons (a : Matcher) (rest : List Matcher) :
    cOneOfOpts (a :: rest) =
      match oneOfFlat a with
      | Option.none => .error "Cannot use AllOf and OneOf in combination!"
      | some fa =>
          match cOneOfOpts rest with
          | .ok r => .ok (fa ++ r)
          | .error e => .error e := by
  cases a <;> cases h : cOneOfOpts rest <;> simp [cOneOfOpts, oneOfFlat, h]

theorem cAllOfOpts_cons (a : Matcher) (rest : List Matcher) :
    cAllOfOpts (a :: rest) =
      match allOfFlat a with
      | Option.none => .error "Cannot use AllOf and OneOf in combination!"
      | some fa =>
          match cAllOfOpts rest with
          | .ok r => .ok (fa ++ r)
          | .error e => .error e := by
  cases a <;> cases h : cAllOfOpts rest <;> simp [cAllOfOpts, allOfFlat, h]

theorem dnmList_append (l1 l2 : List Matcher) :
    doesNotMatchList (l1 ++ l2) =
      match doesNotMatchList l1 with
      | .ok r1 =>
          (match doesNotMatchList l2 with
           | .ok r2 => .ok (r1 ++ r2)
           | .error e => .error e)
      | .error e => .error e := by
  induction l1 with
  | nil =>
      cases h : doesNotMatchList l2 <;> simp [doesNotMatchList, h]
  | cons a r ih =>
      rw [List.cons_append]
      simp only [doesNotMatchList]
      rw [ih]
      cases doesNotMatch a <;> cases doesNotMatchList r <;>
        cases doesNotMatchList l2 <;> simp

theorem cAllOfOpts_append (l1 l2 : List Matcher) :
    cAllOfOpts (l1 ++ l2) =
      match cAllOfOpts l1 with
      | .ok r1 =>
          (match cAllOfOpts l2 with
           | .ok r2 => .ok (r1 ++ r2)
           | .error e => .error e)
      | .error e => .error e := by
  induction l1 with
  | nil => cases h : cAllOfOpts l2 <;> simp [cAllOfOpts, h]
  | cons a r ih =>
      rw [List.cons_append, cAllOfOpts_cons, cAllOfOpts_cons]
      cases allOfFlat a <;> [simp; skip]
      rw [ih]
      cases cAllOfOpts r <;> cases cAllOfOpts l2 <;> simp

theorem cOneOf_ok {l : List Matcher} {p : Matcher} :
    cOneOf l = .ok p ↔ ∃ opts, cOneOfOpts l = .ok opts ∧ p = .oneOf opts := by
  unfold cOneOf
  cases h : cOneOfOpts l <;> simp [eq_comm]

theorem cAllOf_ok {l : List Matcher} {p : Matcher} :
    cAllOf l = .ok p ↔ ∃ opts, cAllOfOpts l = .ok opts ∧ p = .allOf opts := by
  unfold cAllOf
  cases h : cAllOfOpts l <;> simp [eq_comm]

theorem dnm_flat {A a : Matcher} {fa la : List Matcher}
    (hA : doesNotMatch A = .ok a) (hf : oneOfFlat A = some fa)
    (hl : doesNotMatchList fa = .ok la) :
    cAllOfOpts la = cAllOfOpts [a] := by
  cases A with
  | oneOf os =>
      simp only [oneOfFlat] at hf
      injection hf with hfa
      subst hfa
      simp only [doesNotMatch] at hA
      rw [hl] at hA
      rw [cAllOf_ok] at hA
      obtain ⟨opts, hopts, rfl⟩ := hA
      rw [cAllOfOpts_cons]
      simp only [allOfFlat]
      simp [cAllOfOpts, hopts]
  | allOf os => simp [oneOfFlat] at hf
  | doNotCare =>
      simp only [oneOfFlat] at hf
      injection hf with hfa
      subst hfa
      simp [doesNotMatchList, hA] at hl
      subst hl
      rfl
  | mstr s =>
      simp only [oneOfFlat] at hf; injection hf with hfa; subst hfa
      simp [doesNotMatchList, hA] at hl; subst hl; rfl
  | mbool b' =>
      simp only [oneOfFlat] at hf; injection hf with hfa; subst hfa
      simp [doesNotMatchList, hA] at hl; subst hl; rfl
  | mnone =>
      simp only [oneOfFlat] at hf; injection hf with hfa; subst hfa
      simp [doesNotMatchList, hA] at hl; subst hl; rfl
  | mseq ms =>
      simp only [oneOfFlat] at hf; injection hf with hfa; subst hfa
      simp [doesNotMatchList, hA] at hl; subst hl; rfl
  | concrete tag flds =>
      simp only [oneOfFlat] at hf; injection hf with hfa; subst hfa
      simp [doesNotMatchList, hA] at hl; subst hl; rfl
  | inverseOf im =>
      simp only [oneOfFlat] at hf; injection hf with hfa; subst hfa
      simp [doesNotMatchList, hA] at hl; subst hl; rfl
  | extractNode im nm =>
      simp only [oneOfFlat] at hf; injection hf with hfa; subst hfa
      simp [doesNotMatchList, hA] at hl; subst hl; rfl
  | matchIfTrue f =>
      simp only [oneOfFlat] at hf; injection hf with hfa; subst hfa
      simp [doesNotMatchList, hA] at hl; subst hl; rfl
  | matchMetadata k mv =>
      simp only [oneOfFlat] at hf; injection hf with hfa; subst hfa
      simp [doesNotMatchList, hA] at hl; subst hl; rfl
  | matchMetadataIfTrue k f =>
      simp only [oneOfFlat] at hf; injection hf with hfa; subst hfa
      simp [doesNotMatchList, hA] at hl; subst hl; rfl
  | atLeastN im n =>
      simp only [oneOfFlat] at hf; injection hf with hfa; subst hfa
      simp [doesNotMatchList, hA] at hl; subst hl; rfl
  | atMostN im n =>
      simp only [oneOfFlat] at hf; injection hf with hfa; subst hfa
      simp [doesNotMatchList, hA] at hl; subst hl; rfl

theorem dnm_oneof_pair {A B p q a b r : Matcher}
    (h1 : cOneOf [A, B] = .ok p) (h2 : doesNotMatch p = .ok q)
    (h3 : doesNotMatch A = .ok a) (h4 : doesNotMatch B = .ok b)
    (h5 : cAllOf [a, b] = .ok r) : q = r := by
  rw [cOneOf_ok] at h1
  obtain ⟨opts, hopts, rfl⟩ := h1
  rw [cOneOfOpts_cons, cOneOfOpts_cons] at hopts
  cases hfA : oneOfFlat A with
  | none => rw [hfA] at hopts; simp at hopts
  | some fa =>
      cases hfB : oneOfFlat B with
      | none => rw [hfA, hfB] at hopts; simp [cOneOfOpts] at hopts
      | some fb =>
          rw [hfA, hfB] at hopts
          simp only [cOneOfOpts] at hopts
          injection hopts with hopts
          subst hopts
          simp only [doesNotMatch] at h2
          rw [dnmList_append] at h2
          cases hla : doesNotMatchList fa with
          | error e => rw [hla] at h2; simp at h2
          | ok la =>
              rw [hla] at h2
              cases hlb : doesNotMatchList (fb ++ []) with
              | error e => rw [hlb] at h2; simp at h2
              | ok lb =>
                  rw [hlb] at h2
                  rw [List.append_nil] at hlb
                  have E1 : cAllOfOpts la = cAllOfOpts [a] := dnm_flat h3 hfA hla
                  have E2 : cAllOfOpts lb = cAllOfOpts [b] := dnm_flat h4 hfB hlb
                  have hEq : cAllOfOpts (la ++ lb) = cAllOfOpts [a, b] := by
                    rw [cAllOfOpts_append, E1, E2]
                    have : cAllOfOpts [a, b] = cAllOfOpts ([a] ++ [b]) := rfl
                    rw [this, cAllOfOpts_append]
                  rw [cAllOf_ok] at h2 h5
                  obtain ⟨o1, ho1, rfl⟩ := h2
                  obtain ⟨o2, ho2, rfl⟩ := h5
                  rw [hEq, ho2] at ho1
                  injection ho1 with ho1
                  rw [ho1]

/-- C1: match-time outcomes are claimed never to be exceptions, but when a
sequence-valued field is matched against a `OneOf` containing a
`MatchIfTrue` option, `_attribute_matches` evaluates `matcher.func(node)`
where `matcher` is the `OneOf` object (which has no `func` attribute) and
raises `AttributeError`; the exception propagates out of `extract` and
`matches`. -/
theorem extract_sequence_oneof_predicate_raises_attribute_error :
    extract (.node (.mk "Call" [("args", .vseq [])]))
      (.concrete "Call" [("args", .oneOf [.matchIfTrue (fun _ => true)])]) nullLookup =
      .err "AttributeError" ∧
    matchesB (.node (.mk "Call" [("args", .vseq [])]))
      (.concrete "Call" [("args", .oneOf [.matchIfTrue (fun _ => true)])]) nullLookup =
      .error "AttributeError" := by
  constructor <;>
    simp [extract, matchesB, isForbiddenRoot, treeToValue, matchesFn.eq_def,
      nodeMatches.eq_def, nodeFields.eq_def, attributeMatches.eq_def, attrSeqOneOf.eq_def,
      className, getAttr, lookupField]

/-- C2 counterexample: a `Capture` (`_ExtractMatchingNode`) heading a
sequence whose wrapped matcher is an ordinary `ConcretePattern` binds the
capture name to the whole remaining tail (a sequence), not to the single
matched head element, contradicting the claim. -/
theorem sequence_capture_binds_tail_counterexample :
    sequenceMatches nullLookup [.enode (.mk "Num" [])]
        [.extractNode (.concrete "Num" []) "a"] =
      .ok [("a", .vseq [.enode (.mk "Num" [])])] ∧
    sequenceMatches nullLookup [.enode (.mk "Num" [])]
        [.extractNode (.concrete "Num" []) "a"] ≠
      .ok [("a", .vnode (.mk "Num" []))] := by
  have h : sequenceMatches nullLookup [.enode (.mk "Num" [])]
      [.extractNode (.concrete "Num" []) "a"] =
      .ok [("a", .vseq [.enode (.mk "Num" [])])] := by
    simp [sequenceMatches.eq_def, seqOrdinary.eq_def, matchesFn.eq_def, nodeMatches.eq_def,
      nodeFields.eq_def, className, elemToValue, dictMerge, dictInsert]
  refine ⟨h, ?_⟩
  rw [h]
  simp

/-- C2 (amended): when the head matcher of a sequence is a Capture wrapping
an ordinary element matcher, success is decided by Node Matching of the
head value against the wrapped matcher and exactly one value is consumed,
but the capture binds the name to the full remaining tail at the point of
evaluation (not the single head value), and same-named captures of the
wrapped matcher or of the continuation override the capture's key. -/
theorem sequence_capture_ordinary_head_binds_remaining_tail
    (lk : Lookup) (x : Elem) (rest : List Elem) (inner : Matcher) (nm : String)
    (mrest : List Matcher) (h : isSeqSpecial inner = false) :
    sequenceMatches lk (x :: rest) (.extractNode inner nm :: mrest) =
      match matchesFn lk (elemToValue x) inner with
      | .ok mc =>
          match sequenceMatches lk rest mrest with
          | .ok sc => .ok (dictMerge [(nm, .vseq (x :: rest))] (dictMerge mc sc))
          | .fail => .fail
          | .err e => .err e
      | .fail => .fail
      | .err e => .err e := by
  rw [seqM_extract, seqM_ord lk x rest inner mrest h, seqOrdinary_eq]
  cases hA : matchesFn lk (elemToValue x) inner with
  | ok mc => cases hB : sequenceMatches lk rest mrest <;> rfl
  | fail => rfl
  | err e => rfl

/-- C2 witness: the amended equation at a concrete input. -/
theorem sequence_capture_ordinary_head_binds_remaining_tail_witness :
    isSeqSpecial (.concrete "Num" []) = false ∧
    sequenceMatches nullLookup [.enode (.mk "Num" [])]
        [.extractNode (.concrete "Num" []) "a"] =
      (match matchesFn nullLookup (elemToValue (.enode (.mk "Num" []))) (.concrete "Num" []) with
       | .ok mc =>
           match sequenceMatches nullLookup [] [] with
           | .ok sc => .ok (dictMerge [("a", .vseq [.enode (.mk "Num" [])])] (dictMerge mc sc))
           | .fail => .fail
           | .err e => .err e
       | .fail => .fail
       | .err e => .err e) :=
  ⟨rfl, sequence_capture_ordinary_head_binds_remaining_tail nullLookup
    (.enode (.mk "Num" [])) [] (.concrete "Num" []) "a" [] rfl⟩

/-- C3 counterexample: `extract` on a `MaybeSentinel` node with an
`_InverseOf` pattern succeeds with an empty capture dictionary instead of
failing, contradicting the claim that `extract` fails for every
non-node placeholder. -/
theorem extract_maybe_sentinel_inverse_succeeds_counterexample :
    extract .maybe (.inverseOf (.concrete "Name" [])) nullLookup = .ok [] ∧
    extract .maybe (.inverseOf (.concrete "Name" [])) nullLookup ≠ .fail := by
  have h : extract .maybe (.inverseOf (.concrete "Name" [])) nullLookup = .ok [] := by
    simp [extract, isForbiddenRoot, treeToValue, matchesFn_maybe]
  exact ⟨h, by rw [h]; simp⟩

/-- C3 (amended): `extract` fails for a removal sentinel and for a bare
quantifier / predicate / metadata-leaf root; on a maybe-sentinel it fails
for every pattern except a Negation (`_InverseOf`) root, for which it
succeeds with an empty capture dictionary. -/
theorem extract_placeholder_and_forbidden_root_behaviour (m : Matcher) (lk : Lookup) :
    extract .removal m lk = .fail ∧
    (isForbiddenRoot m = true → ∀ t, extract t m lk = .fail) ∧
    extract .maybe m lk = (match m with | .inverseOf _ => Res.ok [] | _ => Res.fail) := by
  refine ⟨rfl, ?_, ?_⟩
  · intro hf t
    cases t with
    | removal => rfl
    | maybe => simp [extract, hf]
    | node n => simp [extract, hf]
  · by_cases hf : isForbiddenRoot m = true
    · simp [extract, hf]
      cases m <;> simp [isForbiddenRoot] at hf ⊢
    · simp [extract, hf, matchesFn_maybe, treeToValue]

/-- C3 witness: the amended statement applied at a bare predicate root. -/
theorem extract_placeholder_and_forbidden_root_behaviour_witness :
    isForbiddenRoot (.matchIfTrue (fun _ => true)) = true ∧
    extract (.node (.mk "Name" [])) (.matchIfTrue (fun _ => true)) nullLookup = .fail :=
  ⟨rfl, (extract_placeholder_and_forbidden_root_behaviour
    (.matchIfTrue (fun _ => true)) nullLookup).2.1 rfl (.node (.mk "Name" []))⟩

/-- C4: when a sequence-valued field is matched by an `AllOf` containing a
`MatchIfTrue` option, the claimed conjunction semantics is not what the
code does: the `AllOf` loop evaluates `matcher.func(node)` on the `AllOf`
object itself (which has no `func` attribute) and raises `AttributeError`
instead of evaluating the predicate. -/
theorem attribute_allof_predicate_raises_attribute_error :
    attributeMatches nullLookup (.vseq []) (.allOf [.matchIfTrue (fun _ => true)]) =
      .err "AttributeError" ∧
    attributeMatches nullLookup (.vseq [])
        (.allOf [.mseq [], .matchIfTrue (fun _ => true)]) = .err "AttributeError" := by
  constructor <;>
    simp [attributeMatches.eq_def, attrSeqAllOf.eq_def, sequenceMatches.eq_def, dictMerge]

/-- C5 counterexample: on an exhausted value sequence the empty-sequence
base case does not recognise a Capture-wrapped quantifier (it is not an
`AtLeastN`/`AtMostN` instance), so the match fails although the unwrapped
quantifier would succeed — the match does not behave as if the quantifier
were unwrapped. -/
theorem capture_quantifier_empty_sequence_counterexample :
    sequenceMatches nullLookup [] [.extractNode (.atLeastN .doNotCare 0) "a"] = .fail ∧
    sequenceMatches nullLookup [] [.atLeastN .doNotCare 0] = .ok [] := by
  constructor <;> simp [sequenceMatches.eq_def, isZeroQuant]

/-- C5 (amended): while at least one value remains, a Capture wrapping a
quantifier behaves exactly as the unwrapped quantifier and on success
binds the capture name to the full remaining tail at the point of
evaluation, with later captures overriding that key; if the values are
exhausted first, the base case fails instead. -/
theorem capture_wrapped_quantifier_binds_full_tail
    (lk : Lookup) (x : Elem) (rest : List Elem) (q : Matcher) (nm : String)
    (mrest : List Matcher) (h : isBareWildcard q = true) :
    sequenceMatches lk (x :: rest) (.extractNode q nm :: mrest) =
      match sequenceMatches lk (x :: rest) (q :: mrest) with
      | .ok sc => .ok (dictMerge [(nm, .vseq (x :: rest))] sc)
      | .fail => .fail
      | .err e => .err e :=
  seqM_extract lk x rest q nm mrest

/-- C5 witness: the amended equation at a concrete input. -/
theorem capture_wrapped_quantifier_binds_full_tail_witness :
    isBareWildcard (.atLeastN .doNotCare 0) = true ∧
    sequenceMatches nullLookup [.enode (.mk "Num" [])]
        [.extractNode (.atLeastN .doNotCare 0) "a"] =
      (match sequenceMatches nullLookup [.enode (.mk "Num" [])] [.atLeastN .doNotCare 0] with
       | .ok sc => .ok (dictMerge [("a", .vseq [.enode (.mk "Num" [])])] sc)
       | .fail => .fail
       | .err e => .err e) :=
  ⟨rfl, capture_wrapped_quantifier_binds_full_tail nullLookup
    (.enode (.mk "Num" [])) [] (.atLeastN .doNotCare 0) "a" [] rfl⟩

/-- C6: negation of a `OneOf` is normalised by construction into the
`AllOf` of the negated options (De Morgan), so whenever all the
constructions succeed the two matchers are the same value and in
particular their match outcome on every node under every resolver is
identical. -/
theorem negation_oneof_demorgan_equivalence
    (A B : Matcher) (lk : Lookup) (v : Value) (p q a b r : Matcher)
    (h1 : cOneOf [A, B] = .ok p) (h2 : doesNotMatch p = .ok q)
    (h3 : doesNotMatch A = .ok a) (h4 : doesNotMatch B = .ok b)
    (h5 : cAllOf [a, b] = .ok r) :
    matchesFn lk v q = matchesFn lk v r := by
  rw [dnm_oneof_pair h1 h2 h3 h4 h5]

/-- C6 witness: the equivalence at concrete matchers and a concrete node. -/
theorem negation_oneof_demorgan_equivalence_witness :
    cOneOf [.concrete "Name" [], .concrete "Call" []] =
      .ok (.oneOf [.concrete "Name" [], .concrete "Call" []]) ∧
    matchesFn nullLookup (.vnode (.mk "Name" []))
        (.allOf [.inverseOf (.concrete "Name" []), .inverseOf (.concrete "Call" [])]) =
      matchesFn nullLookup (.vnode (.mk "Name" []))
        (.allOf [.inverseOf (.concrete "Name" []), .inverseOf (.concrete "Call" [])]) :=
  ⟨rfl, negation_oneof_demorgan_equivalence (.concrete "Name" []) (.concrete "Call" [])
    nullLookup (.vnode (.mk "Name" []))
    (.oneOf [.concrete "Name" [], .concrete "Call" []])
    (.allOf [.inverseOf (.concrete "Name" []), .inverseOf (.concrete "Call" [])])
    (.inverseOf (.concrete "Name" [])) (.inverseOf (.concrete "Call" []))
    (.allOf [.inverseOf (.concrete "Name" []), .inverseOf (.concrete "Call" [])])
    rfl rfl rfl rfl rfl⟩

/-- C7: the backtracking sequence search terminates: the step-indexed
transcription of `_sequence_matches` never runs out of fuel when given
the well-founded measure `sizeOf values + sizeOf matchers` (which shrinks
in the greedy and non-greedy quantifier branches, the decremented
re-inserted quantifiers included), and computes the same total function
`sequenceMatches` for every input sequence, matcher list and resolver. -/
theorem sequence_matching_terminates_with_fuel_measure
    (lk : Lookup) (xs : List Elem) (ms : List Matcher) :
    seqFuel lk (sizeOf xs + sizeOf ms + 1) xs ms = some (sequenceMatches lk xs ms) :=
  seqFuel_adequate lk (sizeOf xs + sizeOf ms + 1) xs ms (by omega)

/-- C8: `MatchMetadata` resolves the (provider, node) pair through the
injected resolver; a missing value always fails regardless of the
comparison value, and a present value succeeds exactly when it is
structurally equal to the comparison value. -/
theorem metadata_equals_missing_fails_present_structural_equality
    (lk : Lookup) (k : String) (mv : Value) (v : Value) :
    metadataMatches lk v (.matchMetadata k mv) =
      match lk k v with
      | Option.none => Res.fail
      | some a => if valueEq a mv then Res.ok [] else Res.fail := by
  rw [metadataMatches.eq_def]

/-- C9: an `AllOf` with zero options is accepted by the constructor and
matches every node with an empty capture dictionary (vacuous
conjunction), while a `OneOf` with zero options matches no node. -/
theorem empty_allof_matches_any_node_empty_oneof_matches_none :
    cAllOf [] = .ok (.allOf []) ∧ cOneOf [] = .ok (.oneOf []) ∧
    ∀ (n : Node) (lk : Lookup),
      matchesFn lk (.vnode n) (.allOf []) = .ok [] ∧
      matchesFn lk (.vnode n) (.oneOf []) = .fail := by
  refine ⟨rfl, rfl, fun n lk => ⟨?_, ?_⟩⟩
  · rw [matchesFn.eq_def]
    exact matchesAllOf_nil lk (.vnode n) []
  · rw [matchesFn.eq_def]
    exact matchesOneOf_nil lk (.vnode n)

/-- C10: `findall` and `extractall` return empty sequences (and raise no
error) when the root matcher is a bare quantifier or when the tree
argument is a removal or maybe sentinel. -/
theorem findall_extractall_bare_wildcard_and_sentinels_empty
    (m : Matcher) (lk : Lookup) (t : TreeArg) (inner : Matcher) (n : Nat) :
    findall .removal m lk = .ok [] ∧ extractall .removal m lk = .ok [] ∧
    findall .maybe m lk = .ok [] ∧ extractall .maybe m lk = .ok [] ∧
    findall t (.atLeastN inner n) lk = .ok [] ∧
    extractall t (.atLeastN inner n) lk = .ok [] ∧
    findall t (.atMostN inner n) lk = .ok [] ∧
    extractall t (.atMostN inner n) lk = .ok [] := by
  refine ⟨rfl, rfl, rfl, rfl, ?_, ?_, ?_, ?_⟩ <;>
    cases t <;> simp [findall, extractall, findOrExtractAll, isBareWildcard]
